import Mathlib

/-!
Verification of the placeholder substitution and mapping-reconciliation engine
of the presidio-anonymization repository.

The embedding models Python strings as lists of Unicode characters
(`Str := List Char`), Python ints as `Nat`/`Int`, Python floats as `ℚ`,
and Python dicts as insertion-ordered association lists (lookup returns the
first match; assignment updates in place when the key exists and appends
otherwise, which is exactly the observable behaviour of a Python dict).

Source files embedded:
* src/anonymizer/core/models.py      (PIIEntity)
* src/anonymizer/core/mapping.py     (PlaceholderMapper, anonymize_text_with_mapping,
                                      replace_entity_in_text, save_* record construction)
* src/anonymizer/core/analyzer.py    (_split_by_confidence, _sort_entities_by_position)
* src/anonymizer/core/anonymizer_service.py (threshold plumbing, selection flow)
-/

namespace Anonym

/-- Python strings are sequences of Unicode code points. -/
abbrev Str := List Char

/-- Coercion helper from Lean string literals to the model of Python strings. -/
def str (s : String) : Str := s.data

/-- PIIEntity from src/anonymizer/core/models.py lines 7 to 24: a detected PII
span with entity type, matched text, character offsets, and confidence score. -/
structure PIIEntity where
  entity_type : Str
  text : Str
  start : Nat
  «end» : Nat
  score : ℚ
deriving DecidableEq

/-- Default entity used only to totalise list indexing in specifications. -/
def dfltEntity : PIIEntity := ⟨[], [], 0, 0, 0⟩

instance : Inhabited PIIEntity := ⟨dfltEntity⟩

/-! ### Association lists: the model of Python dicts -/

/-- Dict lookup: first (unique) binding of the key, if any. -/
def alookup {α : Type} : List (Str × α) → Str → Option α
  | [], _ => none
  | (k, v) :: rest, key => if k = key then some v else alookup rest key

/-- Dict assignment d[k] = v: replace the binding in place when the key is
present, append a new binding otherwise. -/
def aset {α : Type} : List (Str × α) → Str → α → List (Str × α)
  | [], key, v => [(key, v)]
  | (k, w) :: rest, key, v =>
      if k = key then (key, v) :: rest else (k, w) :: aset rest key v

/-! ### Rounding: the model of Python round(x, 4) -/

/-- Round-half-to-even of the fraction n / d (d positive), computed with
integer operations only so that it evaluates inside the kernel:
f is the floor, r the remainder, and the half-way case goes to the even
neighbour, which is the behaviour of Python round(). -/
def roundHalfEvenScaled (n : ℤ) (d : ℕ) : ℤ :=
  let f := Int.fdiv n (d : ℤ)
  let r := n - f * (d : ℤ)
  if 2 * r < (d : ℤ) then f
  else if (d : ℤ) < 2 * r then f + 1
  else if f % 2 = 0 then f else f + 1

/-- Model of round(score, 4) from mapping.py line 72 and 190: round-half-even
of the exact value scaled by 10000. -/
def round4 (q : ℚ) : ℚ := mkRat (roundHalfEvenScaled (q.num * 10000) q.den) 10000

/-! ### Decimal formatting: the model of Python str(int) for the counter -/

/-- Character of a single decimal digit. -/
def digitChar (d : Nat) : Char := Char.ofNat (48 + d)

/-- Structural worker for natRepr; the first argument is fuel, always at
least the number processed, so the guard is never hit. -/
def natReprAux : Nat → Nat → Str
  | 0, _ => []
  | fuel + 1, n =>
      if n < 10 then [digitChar n]
      else natReprAux fuel (n / 10) ++ [digitChar (n % 10)]

/-- Decimal representation of a natural number, the model of the {count}
interpolation in mapping.py line 57. -/
def natRepr (n : Nat) : Str := natReprAux (n + 1) n

/-! ### PlaceholderMapper (mapping.py lines 14 to 88) -/

/-- Entry registered for a placeholder by _register_mapping
(mapping.py lines 66 to 73). -/
structure MappingEntry where
  text : Str
  entity_type : Str
  score : ℚ
deriving DecidableEq

/-- Internal state of PlaceholderMapper (mapping.py lines 22 to 26). -/
structure MapperState where
  value_to_placeholder : List (Str × Str)
  placeholder_to_value : List (Str × MappingEntry)
  type_counters : List (Str × Nat)
deriving DecidableEq

/-- Fresh mapper created by PlaceholderMapper.__init__. -/
def initMapper : MapperState := ⟨[], [], []⟩

/-- Lookup key from _create_lookup_key (mapping.py line 52):
the f-string "{entity_type}:{text}". -/
def lookup_key (e : PIIEntity) : Str := e.entity_type ++ ':' :: e.text

/-- Placeholder format from _generate_new_placeholder (mapping.py line 57):
the f-string "<{entity_type}_{count}>". -/
def placeholder_format (t : Str) (count : Nat) : Str :=
  '<' :: t ++ '_' :: natRepr count ++ ['>']

/-- PlaceholderMapper.get_placeholder (mapping.py lines 28 to 48), with the
mutation of the mapper object made explicit in the returned state.
_increment_counter (lines 59 to 64) initialises a missing counter to 0 and
then adds 1; _register_mapping (lines 66 to 73) records both directions of
the mapping with the score rounded to 4 decimal places. -/
def get_placeholder (s : MapperState) (e : PIIEntity) : Str × MapperState :=
  match alookup s.value_to_placeholder (lookup_key e) with
  | some p => (p, s)
  | none =>
      let count := (alookup s.type_counters e.entity_type).getD 0 + 1
      let p := placeholder_format e.entity_type count
      (p, { value_to_placeholder := aset s.value_to_placeholder (lookup_key e) p,
            placeholder_to_value :=
              aset s.placeholder_to_value p ⟨e.text, e.entity_type, round4 e.score⟩,
            type_counters := aset s.type_counters e.entity_type count })

/-- PlaceholderMapper.get_mappings (mapping.py lines 75 to 82): returns
dict(self._placeholder_to_value), a new top-level dict with the same content.
In value semantics the copy has the same content as the internal table; the
sharing of the nested entry objects is modelled separately in the Store
namespace below. -/
def get_mappings (s : MapperState) : List (Str × MappingEntry) :=
  s.placeholder_to_value

/-- Sequential get_placeholder calls of one mapper session, returning the
placeholder of every call. -/
def runMapper : MapperState → List PIIEntity → List Str × MapperState
  | s, [] => ([], s)
  | s, e :: rest =>
      let ps := get_placeholder s e
      let rs := runMapper ps.2 rest
      (ps.1 :: rs.1, rs.2)

/-! ### Session-level specification helpers for the mapper -/

/-- Entity at position i of a session's call list (dfltEntity out of range;
every use is guarded by i < es.length). -/
def entityAt (es : List PIIEntity) (i : Nat) : PIIEntity := es.getD i dfltEntity

/-- Two entities carry the same deduplication value (entity_type, text). -/
def sameValue (a b : PIIEntity) : Prop :=
  a.entity_type = b.entity_type ∧ a.text = b.text

instance (a b : PIIEntity) : Decidable (sameValue a b) := by
  unfold sameValue
  infer_instance

/-- Position i holds the first occurrence of its (entity_type, text) value. -/
def firstSeenPair (es : List PIIEntity) (i : Nat) : Prop :=
  ∀ e' ∈ es.take i, ¬ sameValue e' (entityAt es i)

instance (es : List PIIEntity) (i : Nat) : Decidable (firstSeenPair es i) :=
  List.decidableBAll _ _

/-- Position i holds the first occurrence of its flat lookup key. -/
def firstSeenKey (es : List PIIEntity) (i : Nat) : Prop :=
  ∀ e' ∈ es.take i, lookup_key e' ≠ lookup_key (entityAt es i)

instance (es : List PIIEntity) (i : Nat) : Decidable (firstSeenKey es i) :=
  List.decidableBAll _ _

/-- Some entity of the list has the given lookup key. -/
def keySeen (es : List PIIEntity) (k : Str) : Prop := ∃ e' ∈ es, lookup_key e' = k

instance (es : List PIIEntity) (k : Str) : Decidable (keySeen es k) :=
  List.decidableBEx _ _

/-- Number of first-seen (entity_type, text) values of type t among the
first i session positions. -/
def newOfTypeBefore (es : List PIIEntity) (i : Nat) (t : Str) : Nat :=
  (List.range i).countP
    (fun j => decide (firstSeenPair es j ∧ (entityAt es j).entity_type = t))

/-- Number of first-seen lookup keys of type t among the first i positions. -/
def newKeyBefore (es : List PIIEntity) (i : Nat) (t : Str) : Nat :=
  (List.range i).countP
    (fun j => decide (firstSeenKey es j ∧ (entityAt es j).entity_type = t))

/-- Number of first-seen lookup keys of type t in the whole session. -/
def newKeyTotal (es : List PIIEntity) (t : Str) : Nat :=
  newKeyBefore es es.length t

/-- Mapper state after a session processing the whole list from a fresh
mapper. -/
def stateOf (es : List PIIEntity) : MapperState := (runMapper initMapper es).2

/-- Placeholder returned for the i-th call of a session started on a fresh
mapper. -/
def psAt (es : List PIIEntity) (i : Nat) : Str :=
  (runMapper initMapper es).1.getD i []

/-- Value of a decimal digit character. -/
def digitVal (ch : Char) : Nat := ch.toNat - 48

/-- Decoding of a decimal string, the left inverse of natRepr. -/
def decodeDec (l : Str) : Nat := l.foldl (fun acc ch => 10 * acc + digitVal ch) 0

/-! ### Substitution engine (mapping.py lines 91 to 123) -/

/-- Python slice text[a:b] for 0 ≤ a, b (clamped like Python slicing). -/
def seg (t : Str) (a b : Nat) : Str := (t.take b).drop a

/-- replace_entity_in_text (mapping.py lines 121 to 123):
text[:entity.start] + placeholder + text[entity.end:]. -/
def replace_entity_in_text (t : Str) (e : PIIEntity) (placeholder : Str) : Str :=
  t.take e.start ++ placeholder ++ t.drop e.«end»

/-- Specification shape of an offset-safe substitution: given span and
placeholder pairs in ascending span order, the text from the current position
up to each span start, then that span's placeholder, and finally the tail
after the last span. Every source character outside the spans appears
exactly once, unchanged and in order, and each span range is represented by
exactly its placeholder. -/
def assemble (t : Str) (pos : Nat) : List (PIIEntity × Str) → Str
  | [] => t.drop pos
  | (e, p) :: rest => seg t pos e.start ++ p ++ assemble t e.«end» rest

/-- Descending comparison on start offsets, the key of
sorted(entities, key=lambda e, reverse=True) in mapping.py line 107. -/
def descStart (a b : PIIEntity) : Prop := b.start ≤ a.start

/-- Ascending comparison on start offsets, the key of
sorted(entities, key=lambda e) in analyzer.py line 142. -/
def ascStart (a b : PIIEntity) : Prop := a.start ≤ b.start

instance : DecidableRel descStart := fun a b => Nat.decLe b.start a.start

instance : DecidableRel ascStart := fun a b => Nat.decLe a.start b.start

instance : IsTotal PIIEntity descStart := ⟨fun a b => Nat.le_total b.start a.start⟩

instance : IsTrans PIIEntity descStart := ⟨fun _ _ _ h1 h2 => Nat.le_trans h2 h1⟩

instance : IsTotal PIIEntity ascStart := ⟨fun a b => Nat.le_total a.start b.start⟩

instance : IsTrans PIIEntity ascStart := ⟨fun _ _ _ h1 h2 => Nat.le_trans h1 h2⟩

/-- The loop body of anonymize_text_with_mapping (mapping.py lines 109 to 112):
thread the mapper through the already-sorted entity list, splicing each
placeholder into the running result. -/
def anonFold : Str → List PIIEntity → MapperState → Str × MapperState
  | r, [], s => (r, s)
  | r, e :: rest, s =>
      let ps := get_placeholder s e
      anonFold (replace_entity_in_text r e ps.1) rest ps.2

/-- anonymize_text_with_mapping (mapping.py lines 91 to 118): sort the spans
by descending start (Python sorted is stable; any stable sort by the same key
computes the same list, so insertionSort is an exact model), replace each one,
return the rewritten text and the mapping snapshot. -/
def anonymize_text_with_mapping (text : Str) (entities : List PIIEntity)
    (mapper : MapperState) : Str × List (Str × MappingEntry) :=
  let sorted_entities := List.insertionSort descStart entities
  let rs := anonFold text sorted_entities mapper
  (rs.1, get_mappings rs.2)

/-! ### Confidence gate (analyzer.py lines 107 to 142) -/

/-- PIIAnalyzer._split_by_confidence (analyzer.py lines 107 to 120): one pass
appending each entity to the high or the low list according to
score >= threshold. The threshold the source compares against is the analyzer
configuration value (MIN_CONFIDENCE_SCORE); it is a parameter here so the
behaviour is established for every configured value. -/
def split_by_confidence (threshold : ℚ) :
    List PIIEntity → List PIIEntity × List PIIEntity
  | [] => ([], [])
  | e :: rest =>
      let hl := split_by_confidence threshold rest
      if threshold ≤ e.score then (e :: hl.1, hl.2) else (hl.1, e :: hl.2)

/-- MIN_CONFIDENCE_SCORE from config.py line 38. -/
def MIN_CONFIDENCE_SCORE : ℚ := 7/10

/-- PIIAnalyzer._sort_entities_by_position (analyzer.py lines 140 to 142):
stable sort by start offset. -/
def sort_entities_by_position (entities : List PIIEntity) : List PIIEntity :=
  List.insertionSort ascStart entities

/-! ### Artifact records (mapping.py lines 126 to 205)

The wall-clock timestamp field is the only part of the records not modelled;
it never participates in any claim. -/

/-- Body of the mapping artifact built by save_mapping_to_file
(mapping.py lines 143 to 149). -/
structure MappingRecord where
  document : Str
  language : Str
  min_confidence_score : ℚ
  mappings : List (Str × MappingEntry)
deriving DecidableEq

/-- One element of the entities list of the excluded-entities artifact
(mapping.py lines 187 to 193). -/
structure ExcludedEntry where
  text : Str
  entity_type : Str
  score : ℚ
  start : Nat
  «end» : Nat
deriving DecidableEq

/-- Body of the excluded-entities artifact built by
save_low_confidence_to_file (mapping.py lines 180 to 196). -/
structure ExcludedRecord where
  document : Str
  language : Str
  min_confidence_score : ℚ
  note : Str
  entities : List ExcludedEntry
deriving DecidableEq

/-- The mapping_data dictionary of save_mapping_to_file
(mapping.py lines 143 to 149). -/
def mapping_data (mapping : List (Str × MappingEntry)) (document_name language : Str)
    (min_confidence_score : ℚ) : MappingRecord :=
  ⟨document_name, language, min_confidence_score, mapping⟩

/-- Entry built for one entity by save_low_confidence_to_file
(mapping.py lines 187 to 193). -/
def excluded_entry (e : PIIEntity) : ExcludedEntry :=
  ⟨e.text, e.entity_type, round4 e.score, e.start, e.«end»⟩

/-- The low_confidence_data dictionary of save_low_confidence_to_file
(mapping.py lines 180 to 196). -/
def low_confidence_data (entities : List PIIEntity) (document_name language : Str)
    (min_confidence_score : ℚ) : ExcludedRecord :=
  ⟨document_name, language, min_confidence_score,
   str "These entities were detected but NOT anonymized due to scores below threshold",
   entities.map excluded_entry⟩

/-! ### AnonymizerService (anonymizer_service.py) -/

/-- Configuration of AnonymizerService.__init__ (anonymizer_service.py
lines 34 to 56): language and resolved confidence threshold. -/
structure ServiceConfig where
  language : Str
  min_confidence : ℚ
deriving DecidableEq

/-- Modelled from the spec: the analyzer built by
AnonymizerService._get_analyzer (anonymizer_service.py lines 58 to 66), which
passes min_confidence=self.min_confidence to PIIAnalyzer. The PIIAnalyzer
version accepting min_confidence is not under src/ (the analyzer.py present
there takes no such parameter; only its caller in anonymizer_service.py
references it). Spec section 4.1: split(spans, threshold) partitions the
detector output with the configured threshold; the detector itself is an
external collaborator, so its output list is an input here. The sorting
before the split is PIIAnalyzer._convert_results_to_entities
(analyzer.py lines 122 to 138), which is under src/. -/
def analyzer_split (min_confidence : ℚ) (detected : List PIIEntity) :
    List PIIEntity × List PIIEntity :=
  split_by_confidence min_confidence (sort_entities_by_position detected)

/-- AnonymizerService.anonymize_file (anonymizer_service.py lines 97 to 151)
at the text level: detector output is an input, file reading and writing are
external; returns the output text, the mapping record, and the
excluded-entities record (written only when low_confidence is nonempty,
line 136). -/
def anonymize_file_model (svc : ServiceConfig) (document_name text : Str)
    (detected : List PIIEntity) : Str × MappingRecord × Option ExcludedRecord :=
  let hl := analyzer_split svc.min_confidence detected
  let rm := anonymize_text_with_mapping text hl.1 initMapper
  (rm.1,
   mapping_data rm.2 document_name svc.language svc.min_confidence,
   if hl.2 = [] then none
   else some (low_confidence_data hl.2 document_name svc.language svc.min_confidence))

/-- DocumentResult (models.py lines 45 to 62), restricted to the fields the
core computes (the path fields are filesystem concerns). -/
structure DocResult where
  language : Str
  entities_count : Nat
deriving DecidableEq

/-- Externally visible write performed by the service: the anonymized
document, the mapping artifact, or the excluded-entities artifact. -/
inductive Effect where
  | writeDoc (text : Str)
  | writeMapping (record : MappingRecord)
  | writeExcluded (record : ExcludedRecord)
deriving DecidableEq

/-- The user-deselected entities of anonymize_file_with_selection
(anonymizer_service.py lines 210 to 215): the members of the above-threshold
list, in order, whose position (object identity) is not among the selected
positions. -/
def deselected (above : List PIIEntity) (selIdx : List Nat) : List PIIEntity :=
  ((List.range above.length).filter (fun i => decide (i ∉ selIdx))).map
    (fun i => above.getD i dfltEntity)

/-- The committed tail of anonymize_file_with_selection
(anonymizer_service.py lines 210 to 254) once a selection exists. Python
selection is by object identity (id(e), line 211); distinct detections are
distinct objects even when equal-valued, so identity is modelled by position
in the above-threshold list and the selection is a list of positions.
excluded keeps the order of all_entities_above_threshold (lines 212 to 215);
the excluded-entities artifact is written only when excluded is nonempty
(line 239). -/
def selection_run (svc : ServiceConfig) (document_name text : Str)
    (above : List PIIEntity) (selIdx : List Nat) : Option DocResult × List Effect :=
  let selected := selIdx.filterMap (fun i => above[i]?)
  let excluded := deselected above selIdx
  let rm := anonymize_text_with_mapping text selected initMapper
  (some ⟨svc.language, selected.length⟩,
   [Effect.writeDoc rm.1,
    Effect.writeMapping (mapping_data rm.2 document_name svc.language svc.min_confidence)]
     ++ (if excluded = [] then []
         else [Effect.writeExcluded
                 (low_confidence_data excluded document_name svc.language svc.min_confidence)]))

/-- AnonymizerService.anonymize_file_with_selection (anonymizer_service.py
lines 153 to 254) at the text level. The callback argument models
selection_callback: none when no callback is passed (all detected entities
are used, lines 206 to 208); some none when the callback returns None
(user cancelled, lines 202 to 205); some (some selIdx) when the callback
returns the entities at those positions. The below-threshold list of the
analyzer is dropped by this flow exactly as in the source (bound at line 191
and never saved). -/
def anonymize_file_with_selection (svc : ServiceConfig) (document_name text : Str)
    (detected : List PIIEntity) (callback : Option (Option (List Nat))) :
    Option DocResult × List Effect :=
  let hl := analyzer_split svc.min_confidence detected
  match callback with
  | some none => (none, [])
  | none => selection_run svc document_name text hl.1 (List.range hl.1.length)
  | some (some selIdx) => selection_run svc document_name text hl.1 selIdx

/-! ### Store-level model of the mapper, for the snapshot claim

The value-level MapperState above is adequate for every functional claim; the
claim about get_mappings not exposing mutable internals is about Python
object identity, so here the nested entry dicts live in an explicit store and
both the mapper and any snapshot hold references (store addresses) to them,
exactly as CPython objects do. dict(d) copies the top-level table and shares
the value references. -/

namespace Store

/-- Store of allocated mapping-entry dicts; an address is an index, and
allocation appends. -/
abbrev Heap := List MappingEntry

/-- Read the entry object at an address. -/
def heapGet (hp : Heap) (a : Nat) : Option MappingEntry := hp[a]?

/-- In-place mutation of the entry object at an address, the model of
entry["score"] = ... through any reference to it. -/
def heapSet (hp : Heap) (a : Nat) (v : MappingEntry) : Heap := hp.set a v

/-- PlaceholderMapper state holding references to entry objects. -/
structure RefState where
  value_to_placeholder : List (Str × Str)
  placeholder_to_value : List (Str × Nat)
  type_counters : List (Str × Nat)
deriving DecidableEq

/-- Fresh mapper, store-level. -/
def initRef : RefState := ⟨[], [], []⟩

/-- PlaceholderMapper.get_placeholder, store-level: _register_mapping
(mapping.py lines 66 to 73) allocates a fresh entry dict and stores a
reference to it. -/
def get_placeholder (hp : Heap) (s : RefState) (e : PIIEntity) :
    Str × RefState × Heap :=
  match alookup s.value_to_placeholder (lookup_key e) with
  | some p => (p, s, hp)
  | none =>
      let count := (alookup s.type_counters e.entity_type).getD 0 + 1
      let p := placeholder_format e.entity_type count
      let addr := hp.length
      (p, { value_to_placeholder := aset s.value_to_placeholder (lookup_key e) p,
            placeholder_to_value := aset s.placeholder_to_value p addr,
            type_counters := aset s.type_counters e.entity_type count },
       hp ++ [⟨e.text, e.entity_type, round4 e.score⟩])

/-- PlaceholderMapper.get_mappings (mapping.py lines 75 to 82), store-level:
dict(self._placeholder_to_value) is a new top-level table carrying the same
placeholder-to-reference pairs; the entry objects themselves are not copied. -/
def get_mappings (s : RefState) : List (Str × Nat) := s.placeholder_to_value

/-- Reading the entry the mapper itself associates to a placeholder, through
the mapper's own internal reference. -/
def read_entry (hp : Heap) (s : RefState) (p : Str) : Option MappingEntry :=
  (alookup s.placeholder_to_value p).bind (heapGet hp)

end Store

/-! ### Concrete session used by the snapshot claim -/

/-- Single PERSON entity registered in the store-level session. -/
def c10_entity : PIIEntity := ⟨str "PERSON", str "John", 0, 4, mkRat 9 10⟩

/-- One get_placeholder call on a fresh store-level mapper. -/
def c10_run : Str × Store.RefState × Store.Heap :=
  Store.get_placeholder [] Store.initRef c10_entity

/-- The snapshot returned by get_mappings after that call. -/
def c10_snapshot : List (Str × Nat) := Store.get_mappings c10_run.2.1

/-- The heap after mutating the nested entry reached through the snapshot:
the model of snapshot["<PERSON_1>"]["score"] = 0. -/
def c10_mutated_heap : Store.Heap :=
  Store.heapSet c10_run.2.2 ((alookup c10_snapshot (str "<PERSON_1>")).getD 0)
    ⟨str "John", str "PERSON", 0⟩

/-- Concrete colon-free session used to instantiate the numbering claim:
two distinct PERSON values, one duplicate, one EMAIL_ADDRESS value. -/
def c3_session : List PIIEntity :=
  [⟨str "PERSON", str "John", 0, 4, mkRat 9 10⟩,
   ⟨str "EMAIL_ADDRESS", str "john@test.com", 10, 23, mkRat 9 10⟩,
   ⟨str "PERSON", str "John", 30, 34, mkRat 8 10⟩,
   ⟨str "PERSON", str "Jane", 40, 44, mkRat 9 10⟩]

/-! ## Theorems -/

theorem alookup_aset_self {α : Type} (l : List (Str × α)) (k : Str) (v : α) :
    alookup (aset l k v) k = some v := by
  induction l with
  | nil => simp [aset, alookup]
  | cons p rest ih =>
      obtain ⟨k', w⟩ := p
      by_cases h : k' = k
      · simp [aset, h, alookup]
      · simp [aset, h, alookup, ih]

theorem alookup_aset_other {α : Type} (l : List (Str × α)) (k k' : Str) (v : α)
    (h : k' ≠ k) : alookup (aset l k v) k' = alookup l k' := by
  induction l with
  | nil => simp [aset, alookup, Ne.symm h]
  | cons p rest ih =>
      obtain ⟨k0, w⟩ := p
      by_cases h0 : k0 = k
      · subst h0
        simp [aset, alookup, Ne.symm h]
      · simp only [aset, if_neg h0, alookup]
        by_cases h1 : k0 = k'
        · simp [h1]
        · simp [h1, ih]

/-- C5: for the text "Hello John, your email is john@test.com" with accepted
spans PERSON "John" at [6,10) score 0.9 and EMAIL_ADDRESS "john@test.com" at
[26,39) score 0.9, anonymize_text_with_mapping with a fresh mapper returns
exactly "Hello <PERSON_1>, your email is <EMAIL_ADDRESS_1>" and a mapping
containing exactly those two entries. -/
theorem example1_exact_output :
    anonymize_text_with_mapping (str "Hello John, your email is john@test.com")
      [⟨str "PERSON", str "John", 6, 10, mkRat 9 10⟩,
       ⟨str "EMAIL_ADDRESS", str "john@test.com", 26, 39, mkRat 9 10⟩] initMapper
    = (str "Hello <PERSON_1>, your email is <EMAIL_ADDRESS_1>",
       [(str "<EMAIL_ADDRESS_1>", ⟨str "john@test.com", str "EMAIL_ADDRESS", mkRat 9 10⟩),
        (str "<PERSON_1>", ⟨str "John", str "PERSON", mkRat 9 10⟩)]) := by
  decide

/-- C2: two entities with the same entity_type and text receive the same
placeholder within one mapper session, and the second call leaves the mapper
state completely unchanged; the entry stored for the placeholder carries the
text and 4-decimal-rounded score of the first occurrence. -/
theorem get_placeholder_dedup (s : MapperState) (a b : PIIEntity)
    (h1 : a.entity_type = b.entity_type) (h2 : a.text = b.text) :
    get_placeholder (get_placeholder s a).2 b
      = ((get_placeholder s a).1, (get_placeholder s a).2)
    ∧ (alookup s.value_to_placeholder (lookup_key a) = none →
        alookup (get_placeholder s a).2.placeholder_to_value (get_placeholder s a).1
          = some ⟨a.text, a.entity_type, round4 a.score⟩) := by
  have hkey : lookup_key b = lookup_key a := by
    unfold lookup_key
    rw [h1, h2]
  cases hl : alookup s.value_to_placeholder (lookup_key a) with
  | some p =>
      constructor
      · simp [get_placeholder, hl, hkey]
      · intro h
        simp at h
  | none =>
      constructor
      · simp [get_placeholder, hl, hkey, alookup_aset_self]
      · intro _
        simp [get_placeholder, hl, alookup_aset_self]

/-- Closed instance of the C2 theorem: the same PERSON value at two offsets
with two scores reuses the placeholder, keeps the first stored entry, and
leaves the mapper state untouched. -/
theorem get_placeholder_dedup_witness :
    get_placeholder
        (get_placeholder initMapper ⟨str "PERSON", str "John", 0, 4, mkRat 9 10⟩).2
        ⟨str "PERSON", str "John", 50, 54, mkRat 1 2⟩
      = ((get_placeholder initMapper ⟨str "PERSON", str "John", 0, 4, mkRat 9 10⟩).1,
         (get_placeholder initMapper ⟨str "PERSON", str "John", 0, 4, mkRat 9 10⟩).2)
    ∧ (alookup initMapper.value_to_placeholder
          (lookup_key ⟨str "PERSON", str "John", 0, 4, mkRat 9 10⟩) = none →
        alookup
            (get_placeholder initMapper ⟨str "PERSON", str "John", 0, 4, mkRat 9 10⟩).2.placeholder_to_value
            (get_placeholder initMapper ⟨str "PERSON", str "John", 0, 4, mkRat 9 10⟩).1
          = some ⟨str "John", str "PERSON", round4 (mkRat 9 10)⟩) :=
  get_placeholder_dedup initMapper
    ⟨str "PERSON", str "John", 0, 4, mkRat 9 10⟩
    ⟨str "PERSON", str "John", 50, 54, mkRat 1 2⟩ rfl rfl

/-- C7: when the selection callback signals explicit cancellation (returns
the None sentinel), anonymize_file_with_selection reports the cancelled
outcome and performs no write at all: no output document, no mapping record,
no excluded-entities record. -/
theorem cancellation_no_artifacts (svc : ServiceConfig) (document_name text : Str)
    (detected : List PIIEntity) (callback : Option (Option (List Nat)))
    (h : callback = some none) :
    anonymize_file_with_selection svc document_name text detected callback
      = (none, []) := by
  subst h
  rfl

/-- Closed instance of the C7 theorem on a unit with one detected entity. -/
theorem cancellation_no_artifacts_witness :
    anonymize_file_with_selection ⟨str "en", MIN_CONFIDENCE_SCORE⟩ (str "d.txt")
      (str "Hi Bob") [⟨str "PERSON", str "Bob", 3, 6, mkRat 9 10⟩] (some none)
      = (none, []) :=
  cancellation_no_artifacts _ _ _ _ _ rfl

theorem take_eq_take_append_seg (t : Str) (a b : Nat) (hab : a ≤ b) :
    t.take b = t.take a ++ seg t a b := by
  unfold seg
  conv_lhs => rw [← List.take_append_drop a (t.take b)]
  rw [List.take_take, Nat.min_eq_left hab]

theorem drop_eq_seg_append_drop (t : Str) (a b : Nat) (hab : a ≤ b) (hb : b ≤ t.length) :
    t.drop a = seg t a b ++ t.drop b := by
  unfold seg
  conv_lhs => rw [← List.take_append_drop b t]
  rw [List.drop_append_of_le_length]
  simp [List.length_take]
  omega

/-- C9 counterexample: a unit whose single span is malformed (start 3 ≥ end 2)
is not rejected: anonymize_text_with_mapping returns an output text and a
nonempty mapping, so processing neither reports a failure nor aborts before
producing artifacts. -/
theorem malformed_span_not_rejected :
    anonymize_text_with_mapping (str "hello")
      [⟨str "PERSON", str "ll", 3, 2, mkRat 9 10⟩] initMapper
    = (str "hel<PERSON_1>llo",
       [(str "<PERSON_1>", ⟨str "ll", str "PERSON", mkRat 9 10⟩)]) := by
  decide

/-- C9 amended: the code performs no span validation at all.
replace_entity_in_text splices text[:start] + placeholder + text[end:]
unconditionally, so for a malformed span with end ≤ start ≤ len(text) the
characters text[end:start] appear twice in the produced output and no error
is reported. -/
theorem malformed_span_spliced (t : Str) (e : PIIEntity) (p : Str)
    (h1 : e.«end» ≤ e.start) (h2 : e.start ≤ t.length) :
    replace_entity_in_text t e p
      = t.take e.«end» ++ seg t e.«end» e.start ++ p
          ++ seg t e.«end» e.start ++ t.drop e.start := by
  unfold replace_entity_in_text
  rw [take_eq_take_append_seg t e.«end» e.start h1,
      drop_eq_seg_append_drop t e.«end» e.start h1 h2]
  simp [List.append_assoc]

/-- Closed instance of the C9 amended theorem at the counterexample input. -/
theorem malformed_span_spliced_witness :
    replace_entity_in_text (str "hello") ⟨str "PERSON", str "ll", 3, 2, mkRat 9 10⟩
        (str "<X>")
      = (str "hello").take 2 ++ seg (str "hello") 2 3 ++ str "<X>"
          ++ seg (str "hello") 2 3 ++ (str "hello").drop 3 :=
  malformed_span_spliced (str "hello") ⟨str "PERSON", str "ll", 3, 2, mkRat 9 10⟩
    (str "<X>") (by decide) (by decide)

/-- C10 counterexample: get_mappings is a shallow dict() copy, so the nested
entry objects are shared. Mutating the entry reached through the snapshot
(setting its score to 0) changes what the mapper itself subsequently reads
for that placeholder: the internal state is not insulated from mutation of
the returned value. -/
theorem get_mappings_nested_entry_shared :
    Store.read_entry c10_run.2.2 c10_run.2.1 (str "<PERSON_1>")
        = some ⟨str "John", str "PERSON", mkRat 9 10⟩
    ∧ Store.read_entry c10_mutated_heap c10_run.2.1 (str "<PERSON_1>")
        = some ⟨str "John", str "PERSON", 0⟩ := by
  decide

/-- C10 amended: get_mappings returns a new top-level table with the same
content as the internal mapping, so top-level additions, removals or
replacements on the snapshot cannot affect the mapper; but the per-placeholder
entry objects are shared, so an in-place mutation of a nested entry reached
through the snapshot is visible through the mapper's own reference. -/
theorem get_mappings_shallow_snapshot (hp : Store.Heap) (s : Store.RefState)
    (p : Str) (a : Nat) (v : MappingEntry)
    (hmem : alookup (Store.get_mappings s) p = some a) (hlt : a < hp.length) :
    Store.get_mappings s = s.placeholder_to_value
    ∧ Store.read_entry (Store.heapSet hp a v) s p = some v := by
  refine ⟨rfl, ?_⟩
  unfold Store.read_entry Store.heapSet Store.heapGet
  have hm : alookup s.placeholder_to_value p = some a := hmem
  rw [hm]
  simp [List.getElem?_set, hlt]

theorem orderedInsert_of_forall_rel {α : Type} (r : α → α → Prop) [DecidableRel r]
    (a : α) (l : List α) (h : ∀ b ∈ l, r a b) :
    List.orderedInsert r a l = a :: l := by
  cases l with
  | nil => rfl
  | cons b bs => simp [List.orderedInsert, h b (List.mem_cons_self b bs)]

theorem filter_orderedInsert {α : Type} (r : α → α → Prop) [DecidableRel r]
    [IsTrans α r] (p : α → Bool) (a : α) (l : List α) (hs : l.Sorted r) :
    (List.orderedInsert r a l).filter p
      = if p a then List.orderedInsert r a (l.filter p) else l.filter p := by
  induction l with
  | nil => cases hpa : p a <;> simp [List.orderedInsert, List.filter, hpa]
  | cons b bs ih =>
      have hb : ∀ c ∈ bs, r b c := (List.sorted_cons.mp hs).1
      have hs' : bs.Sorted r := (List.sorted_cons.mp hs).2
      by_cases hab : r a b
      · rw [show List.orderedInsert r a (b :: bs) = a :: b :: bs from if_pos hab]
        cases hpa : p a <;> cases hpb : p b <;>
          simp only [List.filter, hpa, hpb, if_pos, if_neg, Bool.false_eq_true,
            not_false_iff, if_true, if_false]
        · rw [orderedInsert_of_forall_rel]
          intro c hc
          exact Trans.trans hab (hb c (List.mem_of_mem_filter hc))
        · rw [show List.orderedInsert r a (b :: List.filter p bs) = a :: b :: List.filter p bs
              from if_pos hab]
      · rw [show List.orderedInsert r a (b :: bs) = b :: List.orderedInsert r a bs
              from if_neg hab]
        cases hpa : p a <;> cases hpb : p b <;>
          simp only [List.filter, hpa, hpb, ih hs', Bool.false_eq_true, if_true, if_false]
        · rw [show List.orderedInsert r a (b :: List.filter p bs)
              = b :: List.orderedInsert r a (List.filter p bs) from if_neg hab]

theorem filter_insertionSort {α : Type} (r : α → α → Prop) [DecidableRel r]
    [IsTotal α r] [IsTrans α r] (p : α → Bool) (l : List α) :
    (List.insertionSort r l).filter p = List.insertionSort r (l.filter p) := by
  induction l with
  | nil => rfl
  | cons a l ih =>
      rw [List.insertionSort,
          filter_orderedInsert r p a _ (List.sorted_insertionSort r l), ih]
      cases hpa : p a <;> simp [List.filter, hpa, List.insertionSort]

theorem split_by_confidence_eq_filter (t : ℚ) (l : List PIIEntity) :
    split_by_confidence t l
      = (l.filter (fun e => decide (t ≤ e.score)),
         l.filter (fun e => decide (e.score < t))) := by
  induction l with
  | nil => rfl
  | cons e rest ih =>
      by_cases h : t ≤ e.score
      · simp [split_by_confidence, ih, List.filter, h, not_lt.mpr h]
      · simp [split_by_confidence, ih, List.filter, h, not_le.mp h]

/-- C4: the confidence gate (the split applied to the position-sorted
detections) produces exactly the stable ascending-by-start sort of the
spans with score at or above the threshold and of those below it; the two
outputs are a partition of the input (their concatenation is a permutation
of it and no span is in both), and each output is ordered by ascending
start. Sorting with a stable sort of the filtered input is precisely the
tie-breaking by original input order of Python sorted. -/
theorem confidence_gate_partition (t : ℚ) (es : List PIIEntity) :
    (split_by_confidence t (sort_entities_by_position es)).1
        = sort_entities_by_position (es.filter (fun e => decide (t ≤ e.score)))
    ∧ (split_by_confidence t (sort_entities_by_position es)).2
        = sort_entities_by_position (es.filter (fun e => decide (e.score < t)))
    ∧ List.Perm
        ((split_by_confidence t (sort_entities_by_position es)).1
          ++ (split_by_confidence t (sort_entities_by_position es)).2) es
    ∧ (∀ e ∈ (split_by_confidence t (sort_entities_by_position es)).1, t ≤ e.score)
    ∧ (∀ e ∈ (split_by_confidence t (sort_entities_by_position es)).2, e.score < t)
    ∧ (∀ e, e ∈ (split_by_confidence t (sort_entities_by_position es)).1 →
          e ∉ (split_by_confidence t (sort_entities_by_position es)).2)
    ∧ (split_by_confidence t (sort_entities_by_position es)).1.Pairwise ascStart
    ∧ (split_by_confidence t (sort_entities_by_position es)).2.Pairwise ascStart := by
  have hsplit := split_by_confidence_eq_filter t (sort_entities_by_position es)
  have hacc : (split_by_confidence t (sort_entities_by_position es)).1
      = sort_entities_by_position (es.filter (fun e => decide (t ≤ e.score))) := by
    rw [hsplit]
    exact filter_insertionSort ascStart _ _
  have hrej : (split_by_confidence t (sort_entities_by_position es)).2
      = sort_entities_by_position (es.filter (fun e => decide (e.score < t))) := by
    rw [hsplit]
    exact filter_insertionSort ascStart _ _
  have hmemacc : ∀ e ∈ (split_by_confidence t (sort_entities_by_position es)).1,
      t ≤ e.score := by
    intro e he
    rw [hacc] at he
    have := List.of_mem_filter ((List.mem_insertionSort ascStart).mp he)
    exact of_decide_eq_true this
  have hmemrej : ∀ e ∈ (split_by_confidence t (sort_entities_by_position es)).2,
      e.score < t := by
    intro e he
    rw [hrej] at he
    have := List.of_mem_filter ((List.mem_insertionSort ascStart).mp he)
    exact of_decide_eq_true this
  refine ⟨hacc, hrej, ?_, hmemacc, hmemrej, ?_, ?_, ?_⟩
  · have hnot : (fun e : PIIEntity => decide (e.score < t))
        = fun e => !(decide (t ≤ e.score)) := by
      funext e
      by_cases h : t ≤ e.score
      · simp [h, not_lt.mpr h]
      · simp [h, not_le.mp h]
    rw [hacc, hrej, hnot]
    unfold sort_entities_by_position
    exact List.Perm.trans
      (List.Perm.append (List.perm_insertionSort ascStart _)
        (List.perm_insertionSort ascStart _))
      (List.filter_append_perm _ es)
  · intro e he hr
    exact absurd (hmemacc e he) (not_le.mpr (hmemrej e hr))
  · rw [hacc]
    exact List.sorted_insertionSort ascStart _
  · rw [hrej]
    exact List.sorted_insertionSort ascStart _

/-- C6: the threshold recorded as min_confidence_score in the mapping record
is the service's configured threshold, and it is the same value the gate uses:
a detected span reaches the accepted (anonymized) side exactly when its score
is at least that threshold, and the rejected side exactly when its score is
below it, and the output text is the anonymization of the accepted side. -/
theorem service_threshold_consistency (svc : ServiceConfig) (document_name text : Str)
    (detected : List PIIEntity)
    (h0 : 0 ≤ svc.min_confidence) (h1 : svc.min_confidence ≤ 1) :
    (anonymize_file_model svc document_name text detected).2.1.min_confidence_score
        = svc.min_confidence
    ∧ (∀ e, e ∈ (analyzer_split svc.min_confidence detected).1
          ↔ e ∈ detected ∧ svc.min_confidence ≤ e.score)
    ∧ (∀ e, e ∈ (analyzer_split svc.min_confidence detected).2
          ↔ e ∈ detected ∧ e.score < svc.min_confidence)
    ∧ (anonymize_file_model svc document_name text detected).1
        = (anonymize_text_with_mapping text
            (analyzer_split svc.min_confidence detected).1 initMapper).1 := by
  refine ⟨rfl, ?_, ?_, rfl⟩
  · intro e
    unfold analyzer_split
    rw [split_by_confidence_eq_filter]
    simp [sort_entities_by_position, List.mem_insertionSort, List.mem_filter]
  · intro e
    unfold analyzer_split
    rw [split_by_confidence_eq_filter]
    simp [sort_entities_by_position, List.mem_insertionSort, List.mem_filter]

/-- Closed instance of the C6 theorem: threshold one half, one span below it
and one at it. -/
theorem service_threshold_consistency_witness :
    (anonymize_file_model ⟨str "en", mkRat 1 2⟩ (str "d.txt") (str "Hi Bob")
        [⟨str "PERSON", str "Bob", 3, 6, mkRat 6 10⟩]).2.1.min_confidence_score
        = mkRat 1 2
    ∧ (∀ e, e ∈ (analyzer_split (mkRat 1 2)
            [⟨str "PERSON", str "Bob", 3, 6, mkRat 6 10⟩]).1
          ↔ e ∈ [⟨str "PERSON", str "Bob", 3, 6, mkRat 6 10⟩] ∧ mkRat 1 2 ≤ e.score)
    ∧ (∀ e, e ∈ (analyzer_split (mkRat 1 2)
            [⟨str "PERSON", str "Bob", 3, 6, mkRat 6 10⟩]).2
          ↔ e ∈ [⟨str "PERSON", str "Bob", 3, 6, mkRat 6 10⟩] ∧ e.score < mkRat 1 2)
    ∧ (anonymize_file_model ⟨str "en", mkRat 1 2⟩ (str "d.txt") (str "Hi Bob")
        [⟨str "PERSON", str "Bob", 3, 6, mkRat 6 10⟩]).1
        = (anonymize_text_with_mapping (str "Hi Bob")
            (analyzer_split (mkRat 1 2)
              [⟨str "PERSON", str "Bob", 3, 6, mkRat 6 10⟩]).1 initMapper).1 :=
  service_threshold_consistency ⟨str "en", mkRat 1 2⟩ (str "d.txt") (str "Hi Bob")
    [⟨str "PERSON", str "Bob", 3, 6, mkRat 6 10⟩] (by decide) (by decide)

/-- C8 counterexample: a selection-flow unit with one below-threshold span
(score one half, threshold seven tenths) and a callback keeping everything
produces no excluded-entities record at all, so the rejected span has no
entry anywhere: the record does not cover the union of the rejected and the
user-deselected sets. -/
theorem excluded_record_misses_rejected :
    anonymize_file_with_selection ⟨str "en", mkRat 7 10⟩ (str "d.txt")
      (str "Call Bob") [⟨str "PERSON", str "Bob", 5, 8, mkRat 1 2⟩] (some (some []))
    = (some ⟨str "en", 0⟩,
       [Effect.writeDoc (str "Call Bob"),
        Effect.writeMapping ⟨str "d.txt", str "en", mkRat 7 10, []⟩]) := by
  decide

/-- C8 amended: in the selection flow, the excluded-entities record that is
written (when the user-deselected set is nonempty) contains an entry with
text, entity type, 4-decimal-rounded score, start and end for every
user-deselected span and only those; it is the only excluded-entities record
this flow produces, so below-threshold spans are not part of it (they are
recorded only by the non-selection anonymize_file flow). -/
theorem excluded_record_user_deselected (svc : ServiceConfig)
    (document_name text : Str) (detected : List PIIEntity) (selIdx : List Nat)
    (hne : deselected (analyzer_split svc.min_confidence detected).1 selIdx ≠ []) :
    (low_confidence_data
        (deselected (analyzer_split svc.min_confidence detected).1 selIdx)
        document_name svc.language svc.min_confidence).entities
      = (deselected (analyzer_split svc.min_confidence detected).1 selIdx).map
          excluded_entry
    ∧ Effect.writeExcluded
        (low_confidence_data
          (deselected (analyzer_split svc.min_confidence detected).1 selIdx)
          document_name svc.language svc.min_confidence)
      ∈ (anonymize_file_with_selection svc document_name text detected
          (some (some selIdx))).2
    ∧ ∀ r : ExcludedRecord,
        Effect.writeExcluded r
          ∈ (anonymize_file_with_selection svc document_name text detected
              (some (some selIdx))).2
        → r = low_confidence_data
              (deselected (analyzer_split svc.min_confidence detected).1 selIdx)
              document_name svc.language svc.min_confidence := by
  refine ⟨rfl, ?_, ?_⟩
  · unfold anonymize_file_with_selection selection_run
    simp [hne]
  · intro r hr
    unfold anonymize_file_with_selection selection_run at hr
    simp [hne] at hr
    exact hr

/-- Closed instance of the C8 amended theorem: one accepted span, selection
keeps nothing, so the record covers exactly that deselected span. -/
theorem excluded_record_user_deselected_witness :
    (low_confidence_data
        (deselected (analyzer_split (mkRat 7 10)
            [⟨str "PERSON", str "Bob", 5, 8, mkRat 9 10⟩]).1 [])
        (str "d.txt") (str "en") (mkRat 7 10)).entities
      = (deselected (analyzer_split (mkRat 7 10)
            [⟨str "PERSON", str "Bob", 5, 8, mkRat 9 10⟩]).1 []).map excluded_entry
    ∧ Effect.writeExcluded
        (low_confidence_data
          (deselected (analyzer_split (mkRat 7 10)
              [⟨str "PERSON", str "Bob", 5, 8, mkRat 9 10⟩]).1 [])
          (str "d.txt") (str "en") (mkRat 7 10))
      ∈ (anonymize_file_with_selection ⟨str "en", mkRat 7 10⟩ (str "d.txt")
          (str "Call Bob") [⟨str "PERSON", str "Bob", 5, 8, mkRat 9 10⟩]
          (some (some []))).2
    ∧ ∀ r : ExcludedRecord,
        Effect.writeExcluded r
          ∈ (anonymize_file_with_selection ⟨str "en", mkRat 7 10⟩ (str "d.txt")
              (str "Call Bob") [⟨str "PERSON", str "Bob", 5, 8, mkRat 9 10⟩]
              (some (some []))).2
        → r = low_confidence_data
              (deselected (analyzer_split (mkRat 7 10)
                  [⟨str "PERSON", str "Bob", 5, 8, mkRat 9 10⟩]).1 [])
              (str "d.txt") (str "en") (mkRat 7 10) :=
  excluded_record_user_deselected ⟨str "en", mkRat 7 10⟩ (str "d.txt")
    (str "Call Bob") [⟨str "PERSON", str "Bob", 5, 8, mkRat 9 10⟩] [] (by decide)

theorem replace_append (A X : Str) (f : PIIEntity) (p : Str)
    (hst : f.start ≤ A.length) (hen : f.«end» ≤ A.length) :
    replace_entity_in_text (A ++ X) f p = replace_entity_in_text A f p ++ X := by
  unfold replace_entity_in_text
  rw [List.take_append_of_le_length hst, List.drop_append_of_le_length hen]
  simp [List.append_assoc]

theorem replace_length_ge (A : Str) (f : PIIEntity) (p : Str)
    (hst : f.start ≤ A.length) :
    f.start ≤ (replace_entity_in_text A f p).length := by
  unfold replace_entity_in_text
  simp [List.length_append, List.length_take]
  omega

theorem anonFold_append (l : List PIIEntity) :
    ∀ (A X : Str) (s : MapperState),
    (∀ e ∈ l, e.start ≤ e.«end») →
    (∀ e ∈ l, e.«end» ≤ A.length) →
    l.Pairwise (fun a b => b.«end» ≤ a.start) →
    anonFold (A ++ X) l s = ((anonFold A l s).1 ++ X, (anonFold A l s).2) := by
  induction l with
  | nil =>
      intro A X s _ _ _
      rfl
  | cons f l' ih =>
      intro A X s hse hend hsep
      have hfs : f.start ≤ A.length :=
        le_trans (hse f (List.mem_cons_self _ _)) (hend f (List.mem_cons_self _ _))
      have hfe : f.«end» ≤ A.length := hend f (List.mem_cons_self _ _)
      simp only [anonFold]
      rw [replace_append A X f _ hfs hfe]
      apply ih
      · intro e he
        exact hse e (List.mem_cons_of_mem _ he)
      · intro e he
        exact le_trans ((List.pairwise_cons.mp hsep).1 e he)
          (replace_length_ge A f _ hfs)
      · exact (List.pairwise_cons.mp hsep).2

theorem assemble_snoc (pairs : List (PIIEntity × Str)) :
    ∀ (t : Str) (pos : Nat) (e : PIIEntity) (p : Str),
    (∀ q ∈ pairs, q.1.start ≤ q.1.«end» ∧ q.1.«end» ≤ e.start) →
    assemble t pos (pairs ++ [(e, p)])
      = assemble (t.take e.start) pos pairs ++ p ++ t.drop e.«end» := by
  induction pairs with
  | nil =>
      intro t pos e p _
      simp [assemble, seg]
  | cons fq pairs' ih =>
      intro t pos e p h
      obtain ⟨f, q⟩ := fq
      have hf := h (f, q) (List.mem_cons_self _ _)
      have hfs : f.start ≤ e.start := le_trans hf.1 hf.2
      simp only [List.cons_append, assemble, List.append_eq]
      rw [ih t f.«end» e p (fun q2 hq2 => h q2 (List.mem_cons_of_mem _ hq2))]
      have hseg : seg (t.take e.start) pos f.start = seg t pos f.start := by
        unfold seg
        rw [List.take_take, Nat.min_eq_left hfs]
      rw [hseg]
      simp [List.append_assoc]

theorem zip_reverse {α β : Type} (l1 : List α) :
    ∀ l2 : List β, l1.length = l2.length →
    (l1.zip l2).reverse = l1.reverse.zip l2.reverse := by
  induction l1 with
  | nil =>
      intro l2 h
      cases l2 with
      | nil => rfl
      | cons b l2 => simp at h
  | cons a l1 ih =>
      intro l2 h
      cases l2 with
      | nil => simp at h
      | cons b l2 =>
          have hl : l1.length = l2.length := by simpa using h
          have hrl : l1.reverse.length = l2.reverse.length := by simp [hl]
          simp only [List.zip_cons_cons, List.reverse_cons, ih l2 hl,
            List.zip_append hrl]
          simp

theorem anonFold_assemble (l : List PIIEntity) :
    ∀ (text : Str) (s : MapperState),
    (∀ e ∈ l, e.start < e.«end» ∧ e.«end» ≤ text.length) →
    l.Pairwise (fun a b => b.«end» ≤ a.start) →
    ∃ ps : List Str, ps.length = l.length ∧
      (anonFold text l s).1 = assemble text 0 ((l.zip ps).reverse) := by
  induction l with
  | nil =>
      intro text s _ _
      exact ⟨[], rfl, by simp [anonFold, assemble]⟩
  | cons e rest ih =>
      intro text s hb hsep
      have hbe := hb e (List.mem_cons_self _ _)
      have hA : (text.take e.start).length = e.start := by
        simp [List.length_take]
        omega
      have hrest_se : ∀ f ∈ rest, f.start ≤ f.«end» :=
        fun f hf => le_of_lt (hb f (List.mem_cons_of_mem _ hf)).1
      have hrest_end : ∀ f ∈ rest, f.«end» ≤ (text.take e.start).length := by
        intro f hf
        rw [hA]
        exact (List.pairwise_cons.mp hsep).1 f hf
      have hsep' := (List.pairwise_cons.mp hsep).2
      simp only [anonFold]
      have hrepl : replace_entity_in_text text e (get_placeholder s e).1
          = text.take e.start ++ ((get_placeholder s e).1 ++ text.drop e.«end») := by
        unfold replace_entity_in_text
        simp [List.append_assoc]
      rw [hrepl,
        anonFold_append rest (text.take e.start)
          ((get_placeholder s e).1 ++ text.drop e.«end») (get_placeholder s e).2
          hrest_se hrest_end hsep']
      obtain ⟨ps', hlen', heq'⟩ := ih (text.take e.start) (get_placeholder s e).2
        (fun f hf => ⟨(hb f (List.mem_cons_of_mem _ hf)).1, hrest_end f hf⟩) hsep'
      refine ⟨(get_placeholder s e).1 :: ps', by simp [hlen'], ?_⟩
      rw [heq']
      have hzip : ((e :: rest).zip ((get_placeholder s e).1 :: ps')).reverse
          = (rest.zip ps').reverse ++ [(e, (get_placeholder s e).1)] := by
        simp [List.zip_cons_cons]
      rw [hzip]
      have hcond : ∀ q ∈ (rest.zip ps').reverse,
          q.1.start ≤ q.1.«end» ∧ q.1.«end» ≤ e.start := by
        intro q hq
        obtain ⟨f, q'⟩ := q
        have hmem := (List.of_mem_zip (List.mem_reverse.mp hq)).1
        exact ⟨hrest_se f hmem, (List.pairwise_cons.mp hsep).1 f hmem⟩
      rw [assemble_snoc ((rest.zip ps').reverse) text 0 e (get_placeholder s e).1 hcond]
      simp [List.append_assoc]

/-- C1: for pairwise non-overlapping, in-bounds accepted spans whose text
field matches the source range, anonymize_text_with_mapping produces exactly
the interleaving of the untouched source segments, in order, with one
placeholder per span: characters outside the spans appear unchanged and in
the same relative order, and each span's exact character range is replaced by
exactly one placeholder token. -/
theorem anonymize_offset_safety (text : Str) (es : List PIIEntity) (s : MapperState)
    (hb : ∀ e ∈ es, e.start < e.«end» ∧ e.«end» ≤ text.length)
    (ht : ∀ e ∈ es, e.text = seg text e.start e.«end»)
    (hdisj : es.Pairwise (fun a b => a.«end» ≤ b.start ∨ b.«end» ≤ a.start)) :
    ∃ asc : List PIIEntity, ∃ ps : List Str,
      List.Perm asc es ∧ asc.Pairwise ascStart ∧ ps.length = asc.length ∧
      (anonymize_text_with_mapping text es s).1 = assemble text 0 (asc.zip ps) := by
  have hperm : List.Perm (List.insertionSort descStart es) es :=
    List.perm_insertionSort _ _
  have hb' : ∀ e ∈ List.insertionSort descStart es,
      e.start < e.«end» ∧ e.«end» ≤ text.length := by
    intro e he
    exact hb e ((List.mem_insertionSort descStart).mp he)
  have hdisj' : (List.insertionSort descStart es).Pairwise
      (fun a b => a.«end» ≤ b.start ∨ b.«end» ≤ a.start) := by
    refine (hperm.pairwise_iff ?_).mpr hdisj
    intro a b hab
    exact hab.symm
  have hsorted : (List.insertionSort descStart es).Pairwise descStart :=
    List.sorted_insertionSort descStart es
  have hsep : (List.insertionSort descStart es).Pairwise
      (fun a b => b.«end» ≤ a.start) := by
    refine (hsorted.and hdisj').imp_of_mem ?_
    intro a b ha hb2 hcomb
    rcases hcomb.2 with h | h
    · exfalso
      have h1 : b.start ≤ a.start := hcomb.1
      have h2 : a.start < a.«end» := (hb' a ha).1
      omega
    · exact h
  obtain ⟨ps, hlen, heq⟩ :=
    anonFold_assemble (List.insertionSort descStart es) text s hb' hsep
  refine ⟨(List.insertionSort descStart es).reverse, ps.reverse, ?_, ?_, ?_, ?_⟩
  · exact (List.reverse_perm _).trans hperm
  · exact List.pairwise_reverse.mpr hsorted
  · simp [hlen]
  · have h1 : (anonymize_text_with_mapping text es s).1
        = (anonFold text (List.insertionSort descStart es) s).1 := rfl
    rw [h1, heq, zip_reverse _ _ hlen.symm]

/-- Closed instance of the C1 theorem on the two-span example text. -/
theorem anonymize_offset_safety_witness :
    ∃ asc : List PIIEntity, ∃ ps : List Str,
      List.Perm asc
        [⟨str "PERSON", str "John", 6, 10, mkRat 9 10⟩,
         ⟨str "EMAIL_ADDRESS", str "john@test.com", 26, 39, mkRat 9 10⟩]
      ∧ asc.Pairwise ascStart ∧ ps.length = asc.length
      ∧ (anonymize_text_with_mapping (str "Hello John, your email is john@test.com")
          [⟨str "PERSON", str "John", 6, 10, mkRat 9 10⟩,
           ⟨str "EMAIL_ADDRESS", str "john@test.com", 26, 39, mkRat 9 10⟩] initMapper).1
        = assemble (str "Hello John, your email is john@test.com") 0 (asc.zip ps) :=
  anonymize_offset_safety (str "Hello John, your email is john@test.com")
    [⟨str "PERSON", str "John", 6, 10, mkRat 9 10⟩,
     ⟨str "EMAIL_ADDRESS", str "john@test.com", 26, 39, mkRat 9 10⟩] initMapper
    (by decide) (by decide) (by decide)

/-- Closed instance of the C10 amended theorem on a one-entry mapper. -/
theorem get_mappings_shallow_snapshot_witness :
    Store.get_mappings (⟨[], [(str "<T_1>", 0)], []⟩ : Store.RefState)
        = (⟨[], [(str "<T_1>", 0)], []⟩ : Store.RefState).placeholder_to_value
    ∧ Store.read_entry
        (Store.heapSet [⟨str "A", str "T", mkRat 1 2⟩] 0 ⟨str "A", str "T", 0⟩)
        (⟨[], [(str "<T_1>", 0)], []⟩ : Store.RefState) (str "<T_1>")
        = some ⟨str "A", str "T", 0⟩ :=
  get_mappings_shallow_snapshot [⟨str "A", str "T", mkRat 1 2⟩]
    ⟨[], [(str "<T_1>", 0)], []⟩ (str "<T_1>") 0 ⟨str "A", str "T", 0⟩
    (by decide) (by decide)

theorem natReprAux_fuel (f1 : Nat) : ∀ (f2 n : Nat), n < f1 → n < f2 →
    natReprAux f1 n = natReprAux f2 n := by
  induction f1 with
  | zero =>
      intro f2 n h1 _
      omega
  | succ g ih =>
      intro f2 n h1 h2
      cases f2 with
      | zero => omega
      | succ h =>
          simp only [natReprAux]
          by_cases hn : n < 10
          · simp [hn]
          · have hdiv : n / 10 < n := Nat.div_lt_self (by omega) (by norm_num)
            simp only [hn, if_false]
            rw [ih h (n / 10) (by omega) (by omega)]

theorem natRepr_eq (n : Nat) :
    natRepr n = if n < 10 then [digitChar n]
      else natRepr (n / 10) ++ [digitChar (n % 10)] := by
  unfold natRepr
  by_cases hn : n < 10
  · simp [natReprAux, hn]
  · have hdiv : n / 10 < n := Nat.div_lt_self (by omega) (by norm_num)
    simp only [natReprAux, hn, if_false]
    congr 1
    exact natReprAux_fuel n (n / 10 + 1) (n / 10) (by omega) (by omega)

theorem decodeDec_append_digit (u : Str) (c : Char) :
    decodeDec (u ++ [c]) = 10 * decodeDec u + digitVal c := by
  unfold decodeDec
  rw [List.foldl_append]
  rfl

theorem digitVal_digitChar : ∀ d, d < 10 → digitVal (digitChar d) = d := by decide

theorem decodeDec_natRepr (n : Nat) : decodeDec (natRepr n) = n := by
  induction n using Nat.strong_induction_on with
  | _ n ih =>
      rw [natRepr_eq]
      by_cases hn : n < 10
      · simp only [hn, if_true]
        unfold decodeDec
        simp [digitVal_digitChar n hn]
      · simp only [hn, if_false, decodeDec_append_digit]
        rw [ih (n / 10) (Nat.div_lt_self (by omega) (by norm_num)),
            digitVal_digitChar (n % 10) (Nat.mod_lt n (by norm_num))]
        omega

theorem natRepr_inj (a b : Nat) (h : natRepr a = natRepr b) : a = b := by
  have h2 := congrArg decodeDec h
  rwa [decodeDec_natRepr, decodeDec_natRepr] at h2

theorem digitChar_ne_underscore : ∀ d, d < 10 → digitChar d ≠ '_' := by decide

theorem natRepr_no_underscore (n : Nat) : '_' ∉ natRepr n := by
  induction n using Nat.strong_induction_on with
  | _ n ih =>
      rw [natRepr_eq]
      by_cases hn : n < 10
      · simp only [hn, if_true, List.mem_singleton]
        intro hc
        exact digitChar_ne_underscore n hn hc.symm
      · simp only [hn, if_false, List.mem_append, List.mem_singleton]
        rintro (hc | hc)
        · exact ih (n / 10) (Nat.div_lt_self (by omega) (by norm_num)) hc
        · exact digitChar_ne_underscore (n % 10) (Nat.mod_lt n (by norm_num)) hc.symm

theorem append_sep_inj (c : Char) (t1 : Str) :
    ∀ (t2 x1 x2 : Str), c ∉ t1 → c ∉ t2 →
    t1 ++ c :: x1 = t2 ++ c :: x2 → t1 = t2 ∧ x1 = x2 := by
  induction t1 with
  | nil =>
      intro t2 x1 x2 _ h2 heq
      cases t2 with
      | nil =>
          simp only [List.nil_append] at heq
          exact ⟨rfl, (List.cons.injEq _ _ _ _ ▸ heq).2⟩
      | cons b t2 =>
          exfalso
          simp only [List.nil_append, List.cons_append, List.cons.injEq] at heq
          exact h2 (heq.1 ▸ List.mem_cons_self _ _)
  | cons a t1 ih =>
      intro t2 x1 x2 h1 h2 heq
      cases t2 with
      | nil =>
          exfalso
          simp only [List.cons_append, List.nil_append, List.cons.injEq] at heq
          exact h1 (heq.1 ▸ List.mem_cons_self _ _)
      | cons b t2 =>
          simp only [List.cons_append, List.cons.injEq] at heq
          have hr := ih t2 x1 x2 (fun hc => h1 (List.mem_cons_of_mem _ hc))
            (fun hc => h2 (List.mem_cons_of_mem _ hc)) heq.2
          exact ⟨by rw [heq.1, hr.1], hr.2⟩

theorem placeholder_format_inj (t1 t2 : Str) (n1 n2 : Nat)
    (h : placeholder_format t1 n1 = placeholder_format t2 n2) :
    t1 = t2 ∧ n1 = n2 := by
  unfold placeholder_format at h
  have hrev := congrArg List.reverse h
  simp only [List.reverse_append, List.reverse_cons, List.reverse_nil,
    List.nil_append, List.append_assoc, List.cons_append] at hrev
  have hrev2 : (natRepr n1).reverse ++ '_' :: (t1.reverse ++ ['<'])
      = (natRepr n2).reverse ++ '_' :: (t2.reverse ++ ['<']) := by
    have h3 : ('>' : Char) :: ((natRepr n1).reverse ++ '_' :: (t1.reverse ++ ['<']))
        = '>' :: ((natRepr n2).reverse ++ '_' :: (t2.reverse ++ ['<'])) := by
      simpa [List.append_assoc] using hrev
    exact (List.cons.injEq _ _ _ _ ▸ h3).2
  have hsplit := append_sep_inj '_' (natRepr n1).reverse (natRepr n2).reverse
    (t1.reverse ++ ['<']) (t2.reverse ++ ['<'])
    (fun hc => natRepr_no_underscore n1 (List.mem_reverse.mp hc))
    (fun hc => natRepr_no_underscore n2 (List.mem_reverse.mp hc)) hrev2
  constructor
  · have ht := List.append_cancel_right hsplit.2
    exact List.reverse_injective ht
  · exact natRepr_inj n1 n2 (List.reverse_injective hsplit.1)

theorem entityAt_append (es : List PIIEntity) (e : PIIEntity) (j : Nat)
    (h : j < es.length) : entityAt (es ++ [e]) j = entityAt es j := by
  unfold entityAt
  simp [List.getD_eq_getElem?_getD, List.getElem?_append, h]

theorem entityAt_append_self (es : List PIIEntity) (e : PIIEntity) :
    entityAt (es ++ [e]) es.length = e := by
  unfold entityAt
  simp [List.getD_eq_getElem?_getD, List.getElem?_append_right]

theorem entityAt_take (es : List PIIEntity) (i j : Nat) (h : j < i) :
    entityAt (es.take i) j = entityAt es j := by
  unfold entityAt
  simp [List.getD_eq_getElem?_getD, List.getElem?_take, h]

theorem entityAt_mem (es : List PIIEntity) (i : Nat) (h : i < es.length) :
    entityAt es i ∈ es := by
  unfold entityAt
  rw [List.getD_eq_getElem?_getD, List.getElem?_eq_getElem h]
  exact List.getElem_mem h

theorem firstSeenKey_append (es : List PIIEntity) (e : PIIEntity) (j : Nat)
    (h : j < es.length) : firstSeenKey (es ++ [e]) j ↔ firstSeenKey es j := by
  unfold firstSeenKey
  rw [List.take_append_of_le_length (le_of_lt h), entityAt_append es e j h]

theorem firstSeenKey_take (es : List PIIEntity) (i j : Nat) (hj : j < i) :
    firstSeenKey (es.take i) j ↔ firstSeenKey es j := by
  unfold firstSeenKey
  rw [List.take_take, Nat.min_eq_left (le_of_lt hj), entityAt_take es i j hj]

theorem firstSeenKey_append_self (es : List PIIEntity) (e : PIIEntity) :
    firstSeenKey (es ++ [e]) es.length ↔ ¬ keySeen es (lookup_key e) := by
  unfold firstSeenKey keySeen
  rw [List.take_left, entityAt_append_self]
  constructor
  · rintro h ⟨e', he', hk⟩
    exact h e' he' hk
  · intro h e' he' hk
    exact h ⟨e', he', hk⟩

theorem newKeyBefore_append (es : List PIIEntity) (e : PIIEntity) (i : Nat)
    (hi : i ≤ es.length) (t : Str) :
    newKeyBefore (es ++ [e]) i t = newKeyBefore es i t := by
  unfold newKeyBefore
  apply List.countP_congr
  intro j hj
  have hjlen : j < es.length := lt_of_lt_of_le (List.mem_range.mp hj) hi
  simp only [decide_eq_true_eq]
  rw [firstSeenKey_append es e j hjlen, entityAt_append es e j hjlen]

theorem newKeyTotal_append (es : List PIIEntity) (e : PIIEntity) (t : Str) :
    newKeyTotal (es ++ [e]) t
      = newKeyTotal es t
        + (if ¬ keySeen es (lookup_key e) ∧ e.entity_type = t then 1 else 0) := by
  unfold newKeyTotal
  have hlen : (es ++ [e]).length = es.length + 1 := by simp
  rw [hlen]
  have hsplit : newKeyBefore (es ++ [e]) (es.length + 1) t
      = newKeyBefore (es ++ [e]) es.length t
        + (List.countP
            (fun j => decide (firstSeenKey (es ++ [e]) j
              ∧ (entityAt (es ++ [e]) j).entity_type = t)) [es.length]) := by
    unfold newKeyBefore
    rw [List.range_succ, List.countP_append]
  rw [hsplit, newKeyBefore_append es e es.length (le_refl _) t]
  congr 1
  rw [List.countP_singleton]
  by_cases hcase : ¬ keySeen es (lookup_key e) ∧ e.entity_type = t
  · rw [if_pos hcase]
    have : firstSeenKey (es ++ [e]) es.length
        ∧ (entityAt (es ++ [e]) es.length).entity_type = t := by
      rw [firstSeenKey_append_self, entityAt_append_self]
      exact hcase
    simp [this]
  · rw [if_neg hcase]
    have : ¬ (firstSeenKey (es ++ [e]) es.length
        ∧ (entityAt (es ++ [e]) es.length).entity_type = t) := by
      rw [firstSeenKey_append_self, entityAt_append_self]
      exact hcase
    simp [this]

theorem runMapper_append (l1 : List PIIEntity) :
    ∀ (l2 : List PIIEntity) (s : MapperState),
    runMapper s (l1 ++ l2)
      = ((runMapper s l1).1 ++ (runMapper (runMapper s l1).2 l2).1,
         (runMapper (runMapper s l1).2 l2).2) := by
  induction l1 with
  | nil =>
      intro l2 s
      rfl
  | cons e l1 ih =>
      intro l2 s
      simp only [List.cons_append, runMapper, List.append_eq]
      rw [ih]

theorem runMapper_length (l : List PIIEntity) :
    ∀ s : MapperState, (runMapper s l).1.length = l.length := by
  induction l with
  | nil =>
      intro s
      rfl
  | cons e l ih =>
      intro s
      simp only [runMapper, List.length_cons, ih]

theorem stateOf_append (es : List PIIEntity) (e : PIIEntity) :
    stateOf (es ++ [e]) = (get_placeholder (stateOf es) e).2 := by
  unfold stateOf
  rw [runMapper_append]
  rfl

theorem keySeen_append (es : List PIIEntity) (e : PIIEntity) (k : Str) :
    keySeen (es ++ [e]) k ↔ keySeen es k ∨ lookup_key e = k := by
  unfold keySeen
  constructor
  · rintro ⟨e', he', hk⟩
    rcases List.mem_append.mp he' with h | h
    · exact Or.inl ⟨e', h, hk⟩
    · have he : e' = e := by simpa using h
      exact Or.inr (he ▸ hk)
  · rintro (⟨e', he', hk⟩ | hk)
    · exact ⟨e', List.mem_append_left _ he', hk⟩
    · exact ⟨e, List.mem_append_right _ (List.mem_singleton.mpr rfl), hk⟩

theorem stateOf_char (es : List PIIEntity) :
    (∀ t, (alookup (stateOf es).type_counters t).getD 0 = newKeyTotal es t)
    ∧ (∀ k, (alookup (stateOf es).value_to_placeholder k).isSome = true
          ↔ keySeen es k) := by
  induction es using List.reverseRecOn with
  | nil =>
      constructor
      · intro t
        simp [stateOf, runMapper, initMapper, alookup, newKeyTotal, newKeyBefore]
      · intro k
        simp [stateOf, runMapper, initMapper, alookup, keySeen]
  | append_singleton es e ih =>
      obtain ⟨ihc, ihk⟩ := ih
      by_cases hseen : keySeen es (lookup_key e)
      · obtain ⟨p, hp⟩ := Option.isSome_iff_exists.mp ((ihk (lookup_key e)).mpr hseen)
        have hstate : stateOf (es ++ [e]) = stateOf es := by
          rw [stateOf_append]
          simp [get_placeholder, hp]
        constructor
        · intro t
          rw [hstate, newKeyTotal_append, ihc t]
          simp [hseen]
        · intro k
          rw [hstate, ihk k, keySeen_append]
          constructor
          · exact Or.inl
          · rintro (h | h)
            · exact h
            · rw [← h]
              exact hseen
      · have hp : alookup (stateOf es).value_to_placeholder (lookup_key e) = none := by
          rcases halt : alookup (stateOf es).value_to_placeholder (lookup_key e) with _ | p
          · rfl
          · exact absurd ((ihk (lookup_key e)).mp (by rw [halt]; rfl)) hseen
        constructor
        · intro t
          rw [stateOf_append]
          simp only [get_placeholder, hp]
          rw [newKeyTotal_append]
          by_cases ht : e.entity_type = t
          · subst ht
            rw [alookup_aset_self]
            simp only [Option.getD_some]
            rw [ihc e.entity_type]
            simp [hseen]
          · rw [alookup_aset_other _ _ _ _ (fun hh => ht hh.symm), ihc t]
            have hneg : ¬ (¬ keySeen es (lookup_key e) ∧ e.entity_type = t) := by
              rintro ⟨_, hcontra⟩
              exact ht hcontra
            simp [hneg]
        · intro k
          rw [stateOf_append]
          simp only [get_placeholder, hp]
          rw [keySeen_append]
          by_cases hk : k = lookup_key e
          · subst hk
            rw [alookup_aset_self]
            simp
          · rw [alookup_aset_other _ _ _ _ hk, ihk k]
            constructor
            · exact Or.inl
            · rintro (h | h)
              · exact h
              · exact absurd h.symm hk

theorem psAt_eq (es : List PIIEntity) (i : Nat) (hi : i < es.length) :
    psAt es i = (get_placeholder (stateOf (es.take i)) (entityAt es i)).1 := by
  unfold psAt
  conv_lhs => rw [show es = es.take i ++ es.drop i from (List.take_append_drop i es).symm]
  rw [runMapper_append]
  have hlen1 : (runMapper initMapper (es.take i)).1.length = i := by
    rw [runMapper_length]
    simp [List.length_take]
    omega
  rw [List.getD_eq_getElem?_getD,
      List.getElem?_append_right (le_of_eq hlen1), hlen1]
  have hdrop : es.drop i = entityAt es i :: es.drop (i + 1) := by
    rw [List.drop_eq_getElem_cons hi]
    congr 1
    unfold entityAt
    simp [List.getD_eq_getElem?_getD, List.getElem?_eq_getElem hi]
  rw [hdrop]
  simp [runMapper, stateOf]

theorem newKeyTotal_take (es : List PIIEntity) (i : Nat) (hi : i ≤ es.length)
    (t : Str) : newKeyTotal (es.take i) t = newKeyBefore es i t := by
  unfold newKeyTotal newKeyBefore
  have hlen : (es.take i).length = i := by
    simp [List.length_take]
    omega
  rw [hlen]
  apply List.countP_congr
  intro j hj
  have hji : j < i := List.mem_range.mp hj
  simp only [decide_eq_true_eq]
  rw [firstSeenKey_take es i j hji, entityAt_take es i j hji]

theorem psAt_firstSeenKey (es : List PIIEntity) (i : Nat) (hi : i < es.length)
    (hfs : firstSeenKey es i) :
    psAt es i = placeholder_format (entityAt es i).entity_type
      (newKeyBefore es i (entityAt es i).entity_type + 1) := by
  rw [psAt_eq es i hi]
  have hnoseen : ¬ keySeen (es.take i) (lookup_key (entityAt es i)) := by
    rintro ⟨e', he', hk⟩
    exact hfs e' he' hk
  have hp : alookup (stateOf (es.take i)).value_to_placeholder
      (lookup_key (entityAt es i)) = none := by
    rcases halt : alookup (stateOf (es.take i)).value_to_placeholder
        (lookup_key (entityAt es i)) with _ | p
    · rfl
    · exact absurd (((stateOf_char (es.take i)).2 _).mp (by rw [halt]; rfl)) hnoseen
  simp only [get_placeholder, hp]
  rw [(stateOf_char (es.take i)).1 (entityAt es i).entity_type,
      newKeyTotal_take es i (le_of_lt hi)]

theorem lookup_key_inj (a b : PIIEntity) (ha : ':' ∉ a.entity_type)
    (hb : ':' ∉ b.entity_type) : lookup_key a = lookup_key b ↔ sameValue a b := by
  unfold lookup_key sameValue
  constructor
  · intro h
    exact append_sep_inj ':' a.entity_type b.entity_type a.text b.text ha hb h
  · rintro ⟨h1, h2⟩
    rw [h1, h2]

theorem firstSeen_pair_key (es : List PIIEntity) (i : Nat) (hi : i < es.length)
    (hcf : ∀ e ∈ es, ':' ∉ e.entity_type) :
    firstSeenKey es i ↔ firstSeenPair es i := by
  unfold firstSeenKey firstSeenPair
  constructor
  · intro h e' he' hs
    exact h e' he'
      ((lookup_key_inj e' (entityAt es i) (hcf e' (List.take_subset _ _ he'))
        (hcf _ (entityAt_mem es i hi))).mpr hs)
  · intro h e' he' hk
    exact h e' he'
      ((lookup_key_inj e' (entityAt es i) (hcf e' (List.take_subset _ _ he'))
        (hcf _ (entityAt_mem es i hi))).mp hk)

theorem newKeyBefore_eq_pair (es : List PIIEntity) (i : Nat) (hi : i ≤ es.length)
    (hcf : ∀ e ∈ es, ':' ∉ e.entity_type) (t : Str) :
    newKeyBefore es i t = newOfTypeBefore es i t := by
  unfold newKeyBefore newOfTypeBefore
  apply List.countP_congr
  intro j hj
  have hjlen : j < es.length := lt_of_lt_of_le (List.mem_range.mp hj) hi
  simp only [decide_eq_true_eq]
  rw [firstSeen_pair_key es j hjlen hcf]

theorem newOfTypeBefore_lt (es : List PIIEntity) (i j : Nat) (t : Str)
    (hij : i < j) (hfs : firstSeenPair es i)
    (ht : (entityAt es i).entity_type = t) :
    newOfTypeBefore es i t < newOfTypeBefore es j t := by
  unfold newOfTypeBefore
  set P : Nat → Bool :=
    fun j2 => decide (firstSeenPair es j2 ∧ (entityAt es j2).entity_type = t) with hP
  have hstep : (List.range (i + 1)).countP P = (List.range i).countP P + 1 := by
    rw [List.range_succ, List.countP_append, List.countP_singleton]
    simp [hP, hfs, ht]
  have hmono : (List.range (i + 1)).countP P ≤ (List.range j).countP P :=
    (List.range_sublist.mpr (by omega)).countP_le P
  omega

/-- C3 amended: within one fresh-mapper session in which no entity type
contains a colon (so the flat lookup key entity_type:text is injective on
(entity_type, text) values), every first-seen value is assigned the
placeholder <entity_type_N> where N counts only the first-seen values of
that same entity type, starting at 1 and incremented by one per new value
of that type (so counters of different types are independent), and no two
distinct first-seen values of the session receive the same placeholder. -/
theorem placeholder_numbering (es : List PIIEntity)
    (hcf : ∀ e ∈ es, ':' ∉ e.entity_type) :
    (∀ i, i < es.length → firstSeenPair es i →
        psAt es i = placeholder_format (entityAt es i).entity_type
          (newOfTypeBefore es i (entityAt es i).entity_type + 1))
    ∧ (∀ i j, i < es.length → j < es.length → firstSeenPair es i →
        firstSeenPair es j → i ≠ j → psAt es i ≠ psAt es j) := by
  have hnum : ∀ i, i < es.length → firstSeenPair es i →
      psAt es i = placeholder_format (entityAt es i).entity_type
        (newOfTypeBefore es i (entityAt es i).entity_type + 1) := by
    intro i hi hfs
    rw [psAt_firstSeenKey es i hi ((firstSeen_pair_key es i hi hcf).mpr hfs),
        newKeyBefore_eq_pair es i (le_of_lt hi) hcf]
  refine ⟨hnum, ?_⟩
  intro i j hi hj hfi hfj hne hEq
  rw [hnum i hi hfi, hnum j hj hfj] at hEq
  obtain ⟨hty, hcnt⟩ := placeholder_format_inj _ _ _ _ hEq
  rcases Nat.lt_or_ge i j with hij | hij
  · have hlt := newOfTypeBefore_lt es i j (entityAt es i).entity_type hij hfi rfl
    rw [hty] at hcnt
    rw [← hty] at hcnt
    omega
  · have hij2 : j < i := by omega
    have hlt := newOfTypeBefore_lt es j i (entityAt es j).entity_type hij2 hfj rfl
    rw [hty] at hcnt
    omega

/-- C3 counterexample: the lookup key is the flat string entity_type:text, so
the two distinct values (entity_type "A", text "B:C") and (entity_type "A:B",
text "C") collide on the key "A:B:C": both are first occurrences of their
value, yet both receive the placeholder <A_1>, and the second first-seen
value is not assigned a placeholder built from its own entity type. -/
theorem placeholder_collision :
    ¬ sameValue ⟨str "A", str "B:C", 0, 3, mkRat 9 10⟩
        ⟨str "A:B", str "C", 5, 6, mkRat 9 10⟩
    ∧ firstSeenPair [⟨str "A", str "B:C", 0, 3, mkRat 9 10⟩,
        ⟨str "A:B", str "C", 5, 6, mkRat 9 10⟩] 0
    ∧ firstSeenPair [⟨str "A", str "B:C", 0, 3, mkRat 9 10⟩,
        ⟨str "A:B", str "C", 5, 6, mkRat 9 10⟩] 1
    ∧ psAt [⟨str "A", str "B:C", 0, 3, mkRat 9 10⟩,
        ⟨str "A:B", str "C", 5, 6, mkRat 9 10⟩] 0 = str "<A_1>"
    ∧ psAt [⟨str "A", str "B:C", 0, 3, mkRat 9 10⟩,
        ⟨str "A:B", str "C", 5, 6, mkRat 9 10⟩] 1 = str "<A_1>"
    ∧ str "<A_1>" ≠ placeholder_format (str "A:B") 1 := by
  decide

/-- Closed instance of the C3 amended theorem on a four-call session with
colon-free entity types. -/
theorem placeholder_numbering_witness :
    (∀ i, i < c3_session.length → firstSeenPair c3_session i →
        psAt c3_session i = placeholder_format (entityAt c3_session i).entity_type
          (newOfTypeBefore c3_session i (entityAt c3_session i).entity_type + 1))
    ∧ (∀ i j, i < c3_session.length → j < c3_session.length →
        firstSeenPair c3_session i → firstSeenPair c3_session j → i ≠ j →
        psAt c3_session i ≠ psAt c3_session j) :=
  placeholder_numbering c3_session (by decide)

end Anonym
